import Mathlib

/-
  Verification of the spreadsheet interaction engine in
  `src/app copy/SheetCopy.jsx`.

  The engine's pure logic is embedded shallowly: pixel coordinates and
  cell indices are `Int` (JS numbers used integrally), clipboard text is
  `List Char`, cell values flow through `Option`/type parameters, and the
  one unbounded loop (`calculateRowsOrColsSizes`) is given explicit fuel
  and returns `Option`.
-/

namespace Sheet

/-- The fixed pixel-per-cell-step used to translate a whole-cell scroll
offset into a host scroll position (`scrollSpeed` in the component). -/
def scrollSpeed : Int := 30

/-- Width of the row-header band (`rowHeaderWidth` in the component). -/
def rowHeaderWidth : Int := 50

/-- Height of the column-header band (`columnHeaderHeight` in the component). -/
def columnHeaderHeight : Int := 22

/-- A selection / knob-area rectangle: logical cell coordinates, possibly
inverted on either axis (`x1 > x2` or `y1 > y2` is allowed). -/
structure Rect where
  x1 : Int
  y1 : Int
  x2 : Int
  y2 : Int
deriving DecidableEq, Repr

/-- A logical cell coordinate, as returned by `absCoordianteToCell`. -/
structure Cell where
  x : Int
  y : Int
deriving DecidableEq, Repr

/-- One change record as pushed onto the list handed to `props.onChange`. -/
structure Change (α : Type) where
  x : Int
  y : Int
  value : α
deriving DecidableEq, Repr

/-- The per-axis viewport window computed by `calculateRowsOrColsSizes`:
`visible` indices with parallel pixel `start`/`stop` (JS `end`) arrays. -/
structure AxisWindow where
  visible : List Int
  start : List Int
  stop : List Int
deriving DecidableEq, Repr

/-- The integer range `[a, a+1, ..., b]` (empty when `b < a`), as produced
by a JS `for (let i = a; i <= b; i++)` loop. -/
def intRange (a b : Int) : List Int :=
  List.map (fun i : Nat => a + (i : Int)) (List.range (b + 1 - a).toNat)

/-- Sum of `sizeF 0 + ... + sizeF (n-1)`, as accumulated by the JS loop
`for (let i = 0; i < n; i++)` in `cellToAbsCoordinate` (zero iterations
when `n ≤ 0`). -/
def sumSizes (sizeF : Int → Int) (n : Int) : Int :=
  (List.map (fun i : Nat => sizeF (i : Int)) (List.range n.toNat)).sum

/-! ### Coordinate mapper: `calculateRowsOrColsSizes` (lines 107-146) -/

/-- The trailing `while (true)` loop of `calculateRowsOrColsSizes`
(lines 131-140): starting at index `ind` with cumulative pixel position
`prev`, append indices until the cumulative end meets or exceeds
`visibleArea`.  Fueled; returns the `(visible, start, end)` suffix it
generates, or `none` if the fuel runs out before the threshold is met. -/
def calcLoop (size : Int → Int) (visibleArea : Int) :
    Nat → Int → Int → Option (List Int × List Int × List Int)
  | 0, _, _ => none
  | fuel + 1, ind, prev =>
    let prev2 := prev + size ind
    if visibleArea ≤ prev2 then
      some ([ind], [prev], [prev2])
    else
      match calcLoop size visibleArea fuel (ind + 1) prev2 with
      | none => none
      | some (v, s, e) => some (ind :: v, prev :: s, prev2 :: e)

/-- The frozen-block `for` loop of `calculateRowsOrColsSizes`
(lines 122-127): append `n` consecutive indices starting at `ind`,
accumulating pixel position from `prev`.  Returns the generated
`(visible, start, end)` triple together with the final cumulative
position. -/
def frozenLoop (size : Int → Int) : Nat → Int → Int → (List Int × List Int × List Int) × Int
  | 0, _, prev => (([], [], []), prev)
  | n + 1, ind, prev =>
    let prev2 := prev + size ind
    let r := frozenLoop size n (ind + 1) prev2
    ((ind :: r.1.1, prev :: r.1.2.1, prev2 :: r.1.2.2), r.2)

/-- `calculateRowsOrColsSizes(freezeCount, size, startingSize, startingIndex,
visibleArea)` (lines 107-146).  The first entry is index `0` when
`freezeCount > 0`, otherwise `startingIndex`; with frozen cells the
indices `1 .. freezeCount-1` follow contiguously and the main loop
resumes from `max(startingIndex, freezeCount)`.  The unbounded main loop
is fueled: `none` means the supplied fuel was insufficient (mirroring
nontermination of the JS loop). -/
def calculateRowsOrColsSizes (freezeCount : Int) (size : Int → Int)
    (startingSize startingIndex visibleArea : Int) (fuel : Nat) : Option AxisWindow :=
  let first : Int := if 0 < freezeCount then 0 else startingIndex
  let firstSize := size first
  let prev := startingSize + firstSize
  if 0 < freezeCount then
    let fr := frozenLoop size (freezeCount - 1).toNat 1 prev
    let ind2 := max startingIndex freezeCount
    match calcLoop size visibleArea fuel ind2 fr.2 with
    | none => none
    | some (v, s, e) =>
      some ⟨first :: fr.1.1 ++ v, startingSize :: fr.1.2.1 ++ s, prev :: fr.1.2.2 ++ e⟩
  else
    match calcLoop size visibleArea fuel (startingIndex + 1) prev with
    | none => none
    | some (v, s, e) => some ⟨first :: v, startingSize :: s, prev :: e⟩

/-- Termination of `calculateRowsOrColsSizes` on given inputs: some finite
fuel makes the fueled embedding return a window (the JS `while (true)`
loop exits). -/
def calcTerminates (freezeCount : Int) (size : Int → Int)
    (startingSize startingIndex visibleArea : Int) : Prop :=
  ∃ fuel, (calculateRowsOrColsSizes freezeCount size startingSize startingIndex
    visibleArea fuel).isSome

/-! ### Pixel/cell conversions (lines 288-335) -/

/-- One axis of `absCoordianteToCell` (lines 292-303): scan the window
entries in order and return the first visible index whose inclusive pixel
span `[start, end]` contains the point; the initial value `0` is returned
when no span contains it. -/
def axisPixelToCell : List Int → List Int → List Int → Int → Int
  | v :: vs, s :: ss, e :: es, p =>
    if s ≤ p ∧ p ≤ e then v else axisPixelToCell vs ss es p
  | _, _, _, _ => 0

/-- Whether some window span on the axis contains the point (the scan in
`absCoordianteToCell` finds a hit). -/
def axisInAnySpan : List Int → List Int → List Int → Int → Bool
  | _ :: vs, s :: ss, e :: es, p =>
    (decide (s ≤ p) && decide (p ≤ e)) || axisInAnySpan vs ss es p
  | _, _, _, _ => false

/-- The `findIndex` + cached-start lookup of `cellToAbsCoordinate`: the
`start` entry paired with the first occurrence of `c` in `visible`, if
any. -/
def axisCellToPixelAux : List Int → List Int → Int → Option Int
  | v :: vs, s :: ss, c => if v = c then some s else axisCellToPixelAux vs ss c
  | _, _, _ => none

/-- One axis of `cellToAbsCoordinate` (lines 309-333): a cell currently in
the window gets its cached start; otherwise walk from the header offset,
subtracting the sizes of the `dataOffset` scrolled-past cells and adding
the sizes of the cells before `c`. -/
def axisCellToPixel (vis st : List Int) (sizeF : Int → Int)
    (headerOffset dataOffset c : Int) : Int :=
  match axisCellToPixelAux vis st c with
  | some s => s
  | none => headerOffset - sumSizes sizeF dataOffset + sumSizes sizeF c

/-- `absCoordianteToCell(absX, absY)` (lines 288-306) over the two axis
windows. -/
def absCoordianteToCell (colWin rowWin : AxisWindow) (absX absY : Int) : Cell :=
  ⟨axisPixelToCell colWin.visible colWin.start colWin.stop absX,
   axisPixelToCell rowWin.visible rowWin.start rowWin.stop absY⟩

/-- `cellToAbsCoordinate(cellX, cellY)` (lines 308-335) over the two axis
windows, returning the pixel start point of the cell. -/
def cellToAbsCoordinate (colWin rowWin : AxisWindow) (cw ch : Int → Int)
    (offX offY cellX cellY : Int) : Int × Int :=
  (axisCellToPixel colWin.visible colWin.start cw rowHeaderWidth offX cellX,
   axisCellToPixel rowWin.visible rowWin.start ch columnHeaderHeight offY cellY)

/-! ### Selection emission and scroll-follow (`changeSelection`, lines 234-286) -/

/-- The rectangle handed to `props.onSelectionChanged` (lines 271-285):
the input corners with each axis swapped when inverted. -/
def emittedSelection (x1 y1 x2 y2 : Int) : Rect :=
  let p := if x1 > x2 then (x2, x1) else (x1, x2)
  let q := if y1 > y2 then (y2, y1) else (y1, y2)
  ⟨p.1, q.1, p.2, q.2⟩

/-- One axis of the scroll-follow branch of `changeSelection`
(lines 242-254): when the active corner `c2` is missing from the visible
list or sits at its last entry, compute the new data offset
`max(offset, freeze) ± 1` and the host scroll position
`newOffset * scrollSpeed`; otherwise no scroll is requested. -/
def scrollFollowAxis (visible : List Int) (offset freeze c2 : Int) : Option (Int × Int) :=
  let lastV := (visible.getLast?).getD 0
  if ¬ (c2 ∈ visible) ∨ lastV = c2 then
    let inc : Int := if lastV ≤ c2 then 1 else -1
    let newOff := max offset freeze + inc
    some (newOff, newOff * scrollSpeed)
  else
    none

/-! ### Clipboard import (`parsePastedText`, lines 788-826) -/

/-- Split a character list at every occurrence of `sep`, like JS
`String.prototype.split` with a single-character separator. -/
def splitOnChar (sep : Char) : List Char → List (List Char)
  | [] => [[]]
  | c :: cs =>
    let r := splitOnChar sep cs
    if c = sep then [] :: r
    else
      match r with
      | [] => [[c]]
      | h :: t => (c :: h) :: t

/-- Drop a single trailing carriage return, if present. -/
def stripTrailingCR (l : List Char) : List Char :=
  match l.reverse with
  | '\r' :: t => t.reverse
  | _ => l

/-- Apply `f` to every element except the last. -/
def mapInit {α : Type} (f : α → α) : List α → List α
  | [] => []
  | [a] => [a]
  | a :: b :: t => f a :: mapInit f (b :: t)

/-- JS `text.split(/\r?\n/)`: split at newlines, where a carriage return
immediately preceding a newline belongs to the separator. -/
def splitLines (t : List Char) : List (List Char) :=
  mapInit stripTrailingCR (splitOnChar '\n' t)

/-- The paste anchor on one axis (lines 789-802 of `parsePastedText`):
`a` when only the first corner is set, `min a b` when both are set,
otherwise the sentinel `-1`. -/
def pasteLoc (a b : Int) : Int :=
  let l : Int := if a ≠ -1 ∧ b = -1 then a else -1
  if a ≠ -1 ∧ b ≠ -1 then min a b else l

/-- `parsePastedText(text)` (lines 788-826): resolve the anchor from the
current selection (dropping the paste when none), split the text into
rows and tab-separated columns, emit one change per source cell at
`anchor + offset`, and return the final selection rectangle spanning the
pasted extent. -/
def parsePastedText (sel : Rect) (text : List Char) :
    Option (List (Change (List Char)) × Rect) :=
  let pasteLocX := pasteLoc sel.x1 sel.x2
  let pasteLocY := pasteLoc sel.y1 sel.y2
  if pasteLocX = -1 ∨ pasteLocY = -1 then
    none
  else
    let rows := splitLines text
    let pasteX2 := rows.foldl
      (fun acc row => max acc (pasteLocX + (splitOnChar '\t' row).length - 1)) pasteLocX
    let pasteY2 := pasteLocY + rows.length - 1
    let changes := rows.enum.flatMap (fun yrow =>
      ((splitOnChar '\t' yrow.2).enum).map (fun xcol =>
        { x := pasteLocX + (xcol.1 : Int), y := pasteLocY + (yrow.1 : Int),
          value := xcol.2 }))
    some (changes, ⟨pasteLocX, pasteLocY, pasteX2, pasteY2⟩)

/-! ### Keyboard handling (`onGridKeyDown`, lines 1283-1378) -/

/-- The change list built by the Backspace/Delete branch of
`onGridKeyDown` (lines 1303-1326): one `null`-valued change per cell of
the normalized selection rectangle. -/
def deleteChanges (sel : Rect) : List (Change (Option (List Char))) :=
  let px := if sel.x1 > sel.x2 then (sel.x2, sel.x1) else (sel.x1, sel.x2)
  let py := if sel.y1 > sel.y2 then (sel.y2, sel.y1) else (sel.y1, sel.y2)
  (intRange py.1 py.2).flatMap (fun y =>
    (intRange px.1 px.2).map (fun x => { x := x, y := y, value := none }))

/-- `startEditingCell(editCell)` (lines 874-886): refuse read-only cells,
otherwise seed the edit buffer from the edit-value accessor (empty when
absent) and report the started edit state. -/
def startEditingCell (cellReadOnly : Int → Int → Bool)
    (editData : Int → Int → Option (List Char)) (editCell : Cell) :
    Option (Cell × List Char) :=
  if cellReadOnly editCell.x editCell.y then none
  else some (editCell, (editData editCell.x editCell.y).getD [])

/-- The keys distinguished by the grid key handler. -/
inductive GridKey where
  | backspace
  | del
  | shift
  | printable
  | arrowRight
  | arrowLeft
  | arrowUp
  | arrowDown
  | other
deriving DecidableEq, Repr

/-- Outcome of one `onGridKeyDown` dispatch: the changes handed to
`props.onChange`, the edit state started (if any), and the rectangle
handed to `changeSelection` (if any). -/
structure GridKeyResult where
  changes : List (Change (Option (List Char)))
  editStart : Option (Cell × List Char)
  selChange : Option Rect
deriving Repr

/-- The arrow-key branch of `onGridKeyDown` (lines 1352-1375): move the
active corner one step, clamp at `0`, and snap the anchor to it unless
shift is held. -/
def arrowMove (sel : Rect) (k : GridKey) (shiftKey : Bool) : Rect :=
  let dx : Int := if k = .arrowRight then 1 else if k = .arrowLeft then -1 else 0
  let dy : Int := if k = .arrowDown then 1 else if k = .arrowUp then -1 else 0
  let s2x := max (sel.x2 + dx) 0
  let s2y := max (sel.y2 + dy) 0
  if shiftKey then ⟨sel.x1, sel.y1, s2x, s2y⟩ else ⟨s2x, s2y, s2x, s2y⟩

/-- `onGridKeyDown` (lines 1283-1378) as a pure dispatch: the
Backspace/Delete branch runs before the no-selection guard; the typing
branch refuses read-only cells before starting an edit; arrow keys move
the selection. -/
def onGridKeyDown (cellReadOnly : Int → Int → Bool)
    (editData : Int → Int → Option (List Char)) (sel : Rect)
    (k : GridKey) (shiftKey : Bool) : GridKeyResult :=
  if k = .shift then ⟨[], none, none⟩
  else if k = .backspace ∨ k = .del then ⟨deleteChanges sel, none, none⟩
  else if sel.x1 = -1 ∨ sel.x2 = -1 ∨ sel.y1 = -1 ∨ sel.y2 = -1 then ⟨[], none, none⟩
  else if k = .printable then
    if cellReadOnly sel.x1 sel.y1 then ⟨[], none, none⟩
    else ⟨[], startEditingCell cellReadOnly editData ⟨sel.x1, sel.y1⟩, none⟩
  else if k = .arrowRight ∨ k = .arrowLeft ∨ k = .arrowUp ∨ k = .arrowDown then
    ⟨[], none, some (arrowMove sel k shiftKey)⟩
  else ⟨[], none, none⟩

/-! ### Fill-handle release (`onMouseUp`, lines 1012-1089) -/

/-- The vertical fill loop (lines 1053-1063): one pass per destination
row, the source row cycling through `sy1..sy2` and wrapping back to `sy1`
on overflow. -/
def fillVert {α : Type} (src : Int → Int → α) (fx1 fx2 sy1 sy2 : Int) :
    List Int → Int → List (Change α)
  | [], _ => []
  | y :: ys, srcY =>
    ((intRange fx1 fx2).map (fun x => { x := x, y := y, value := src x srcY })) ++
      fillVert src fx1 fx2 sy1 sy2 ys (if sy2 < srcY + 1 then sy1 else srcY + 1)

/-- The horizontal fill loop (lines 1071-1081): one pass per destination
column, the source column cycling through `sx1..sx2`. -/
def fillHorz {α : Type} (src : Int → Int → α) (fy1 fy2 sx1 sx2 : Int) :
    List Int → Int → List (Change α)
  | [], _ => []
  | x :: xs, srcX =>
    ((intRange fy1 fy2).map (fun y => { x := x, y := y, value := src srcX y })) ++
      fillHorz src fy1 fy2 sx1 sx2 xs (if sx2 < srcX + 1 then sx1 else srcX + 1)

/-- The knob-drag branch of `onMouseUp` (lines 1012-1089): normalize the
selection and knob area, choose the vertical orientation when the widths
match (else horizontal), clip the destination region to the extension
beyond the fixed region, and emit one change per destination cell with
the cycled source value. -/
def fillChanges {α : Type} (sel knobArea : Rect) (src : Int → Int → α) :
    List (Change α) :=
  let sx := if sel.x1 > sel.x2 then (sel.x2, sel.x1) else (sel.x1, sel.x2)
  let sy := if sel.y1 > sel.y2 then (sel.y2, sel.y1) else (sel.y1, sel.y2)
  let kx := if knobArea.x1 > knobArea.x2 then (knobArea.x2, knobArea.x1)
            else (knobArea.x1, knobArea.x2)
  let ky := if knobArea.y1 > knobArea.y2 then (knobArea.y2, knobArea.y1)
            else (knobArea.y1, knobArea.y2)
  if kx.2 - kx.1 = sx.2 - sx.1 then
    let fy := if ky.1 = sy.1 then (sy.2 + 1, ky.2) else (ky.1, sy.1 - 1)
    fillVert src kx.1 kx.2 sy.1 sy.2 (intRange fy.1 fy.2) sy.1
  else
    let fx := if kx.1 = sx.1 then (sx.2 + 1, kx.2) else (kx.1, sx.1 - 1)
    fillHorz src ky.1 ky.2 sx.1 sx.2 (intRange fx.1 fx.2) sx.1

/-! ### Structural invariant of a computed axis window

`AxisChain size visible start stop` captures the shape
`calculateRowsOrColsSizes` guarantees: the three lists are parallel and
nonempty, every stop is its start plus the cell's size, consecutive
spans are contiguous (`start[i+1] = stop[i]`), and the visible indices
are strictly increasing. -/

inductive AxisChain (size : Int → Int) : List Int → List Int → List Int → Prop
  | single (v s : Int) : AxisChain size [v] [s] [s + size v]
  | cons (v s v2 s2 : Int) (vs ss es : List Int)
      (hlt : v < v2) (hs : s2 = s + size v)
      (h : AxisChain size (v2 :: vs) (s2 :: ss) es) :
      AxisChain size (v :: v2 :: vs) (s :: s2 :: ss) (s2 :: es)

theorem AxisChain.stop_ne_nil {size : Int → Int} {vis st en : List Int}
    (h : AxisChain size vis st en) : en ≠ [] := by
  cases h <;> simp

theorem AxisChain.head_le {size : Int → Int} :
    ∀ {vis st en : List Int}, AxisChain size vis st en →
      ∀ v2, vis.head? = some v2 → ∀ u ∈ vis, v2 ≤ u := by
  intro vis st en h
  induction h with
  | single v s =>
    intro v2 hv u hu
    simp at hv hu
    omega
  | cons v s v2 s2 vs ss es hlt hs htail ih =>
    intro w hw u hu
    simp at hw
    rcases List.mem_cons.mp hu with h1 | h2
    · omega
    · have := ih v2 rfl u h2
      omega

theorem AxisChain.consHead {size : Int → Int} {vis st en : List Int} {v2 s2 : Int}
    (h : AxisChain size vis st en) (hv : vis.head? = some v2) (hs : st.head? = some s2)
    (v s : Int) (hlt : v < v2) (hs2 : s2 = s + size v) :
    AxisChain size (v :: vis) (s :: st) (s2 :: en) := by
  cases h with
  | single a b =>
    simp only [List.head?_cons, Option.some.injEq] at hv hs
    rw [← hv] at hlt
    rw [← hs] at hs2
    rw [← hs]
    exact AxisChain.cons v s a b [] [] _ hlt hs2 (AxisChain.single a b)
  | cons a b v3 s3 vs ss es hlt' hs' htail =>
    simp only [List.head?_cons, Option.some.injEq] at hv hs
    rw [← hv] at hlt
    rw [← hs] at hs2
    rw [← hs]
    exact AxisChain.cons v s a b (v3 :: vs) (s3 :: ss) (s3 :: es) hlt hs2
      (AxisChain.cons a b v3 s3 vs ss es hlt' hs' htail)

theorem getLast?_cons_of_ne_nil {α : Type} {l : List α} (a : α) (h : l ≠ []) :
    (a :: l).getLast? = l.getLast? := by
  cases l with
  | nil => exact absurd rfl h
  | cons b t => exact List.getLast?_cons_cons

/-- The main loop of `calculateRowsOrColsSizes` produces a chain whose
head entry is the loop's starting index and position and whose last stop
meets the visible-extent threshold. -/
theorem calcLoop_spec (size : Int → Int) (visibleArea : Int) :
    ∀ (fuel : Nat) (ind prev : Int) (v s e : List Int),
      calcLoop size visibleArea fuel ind prev = some (v, s, e) →
      AxisChain size v s e ∧ v.head? = some ind ∧ s.head? = some prev ∧
        ∃ L, e.getLast? = some L ∧ visibleArea ≤ L := by
  intro fuel
  induction fuel with
  | zero => intro ind prev v s e h; simp [calcLoop] at h
  | succ n ih =>
    intro ind prev v s e h
    rw [calcLoop] at h
    by_cases hth : visibleArea ≤ prev + size ind
    · rw [if_pos hth] at h
      simp only [Option.some.injEq, Prod.mk.injEq] at h
      obtain ⟨h1, h2, h3⟩ := h
      subst h1 h2 h3
      exact ⟨AxisChain.single ind prev, rfl, rfl, prev + size ind, rfl, hth⟩
    · rw [if_neg hth] at h
      revert h
      cases hrec : calcLoop size visibleArea n (ind + 1) (prev + size ind) with
      | none => intro h; simp at h
      | some r =>
        obtain ⟨v', s', e'⟩ := r
        intro h
        simp only [Option.some.injEq, Prod.mk.injEq] at h
        obtain ⟨h1, h2, h3⟩ := h
        subst h1 h2 h3
        obtain ⟨hch, hhv, hhs, L, hL, hLa⟩ := ih (ind + 1) (prev + size ind) v' s' e' hrec
        refine ⟨AxisChain.consHead hch hhv hhs ind prev (by omega) rfl, rfl, rfl,
          L, ?_, hLa⟩
        rw [getLast?_cons_of_ne_nil _ hch.stop_ne_nil]
        exact hL

/-- The frozen-block loop glues onto any chain that continues from its
final cumulative position at a strictly larger index, and the combined
lists keep the chain property, the expected head index and the entry
position at their head. -/
theorem frozenLoop_chain (size : Int → Int) :
    ∀ (n : Nat) (ind prev : Int) (tvs tss tes : List Int) (tind : Int),
      AxisChain size tvs tss tes →
      tvs.head? = some tind →
      tss.head? = some (frozenLoop size n ind prev).2 →
      ind + n ≤ tind →
      AxisChain size ((frozenLoop size n ind prev).1.1 ++ tvs)
          ((frozenLoop size n ind prev).1.2.1 ++ tss)
          ((frozenLoop size n ind prev).1.2.2 ++ tes) ∧
        ((frozenLoop size n ind prev).1.1 ++ tvs).head? =
          some (if n = 0 then tind else ind) ∧
        ((frozenLoop size n ind prev).1.2.1 ++ tss).head? = some prev := by
  intro n
  induction n with
  | zero =>
    intro ind prev tvs tss tes tind hch hhv hhs _
    refine ⟨hch, ?_, ?_⟩
    · simpa [frozenLoop] using hhv
    · simpa [frozenLoop] using hhs
  | succ m ih =>
    intro ind prev tvs tss tes tind hch hhv hhs hle
    have hrec := ih (ind + 1) (prev + size ind) tvs tss tes tind hch hhv hhs (by omega)
    obtain ⟨hchain, hheadv, hheads⟩ := hrec
    have hv2 : ind < (if m = 0 then tind else ind + 1) := by
      split <;> omega
    refine ⟨?_, ?_, ?_⟩
    · show AxisChain size
        (ind :: ((frozenLoop size m (ind + 1) (prev + size ind)).1.1 ++ tvs))
        (prev :: ((frozenLoop size m (ind + 1) (prev + size ind)).1.2.1 ++ tss))
        ((prev + size ind) :: ((frozenLoop size m (ind + 1) (prev + size ind)).1.2.2 ++ tes))
      exact AxisChain.consHead hchain hheadv hheads ind prev hv2 rfl
    · simp [frozenLoop]
    · simp [frozenLoop]

/-- Every window returned by `calculateRowsOrColsSizes` satisfies the
chain invariant: parallel lists, `stop = start + size`, contiguous spans,
strictly increasing visible indices. -/
theorem calculateRowsOrColsSizes_chain (freezeCount : Int) (size : Int → Int)
    (ss si area : Int) (fuel : Nat) (w : AxisWindow)
    (h : calculateRowsOrColsSizes freezeCount size ss si area fuel = some w) :
    AxisChain size w.visible w.start w.stop := by
  rw [calculateRowsOrColsSizes] at h
  by_cases hf : 0 < freezeCount
  · rw [if_pos hf] at h
    simp only [if_pos hf] at h
    revert h
    cases hrec : calcLoop size area fuel (max si freezeCount)
        (frozenLoop size (freezeCount - 1).toNat 1 (ss + size 0)).2 with
    | none => intro h; simp at h
    | some r =>
      obtain ⟨v, s, e⟩ := r
      intro h
      simp only [Option.some.injEq] at h
      obtain ⟨hch, hhv, hhs, _, _, _⟩ :=
        calcLoop_spec size area fuel (max si freezeCount)
          (frozenLoop size (freezeCount - 1).toNat 1 (ss + size 0)).2 v s e hrec
      have hglue := frozenLoop_chain size (freezeCount - 1).toNat 1 (ss + size 0)
        v s e (max si freezeCount) hch hhv hhs (by omega)
      obtain ⟨hchain, hheadv, hheads⟩ := hglue
      have hpos : (0 : Int) < (if (freezeCount - 1).toNat = 0 then max si freezeCount else 1) := by
        split <;> omega
      have := AxisChain.consHead hchain hheadv hheads 0 ss hpos rfl
      rw [← h]
      exact this
  · rw [if_neg hf] at h
    simp only [if_neg hf] at h
    revert h
    cases hrec : calcLoop size area fuel (si + 1) (ss + size si) with
    | none => intro h; simp at h
    | some r =>
      obtain ⟨v, s, e⟩ := r
      intro h
      simp only [Option.some.injEq] at h
      obtain ⟨hch, hhv, hhs, _, _, _⟩ :=
        calcLoop_spec size area fuel (si + 1) (ss + size si) v s e hrec
      have := AxisChain.consHead hch hhv hhs si ss (by omega) rfl
      rw [← h]
      exact this

/-- Whenever `calculateRowsOrColsSizes` returns a window, the last entry
of its stop array meets or exceeds the requested visible extent. -/
theorem calculateRowsOrColsSizes_lastStop (freezeCount : Int) (size : Int → Int)
    (ss si area : Int) (fuel : Nat) (w : AxisWindow)
    (h : calculateRowsOrColsSizes freezeCount size ss si area fuel = some w) :
    ∃ L, w.stop.getLast? = some L ∧ area ≤ L := by
  rw [calculateRowsOrColsSizes] at h
  by_cases hf : 0 < freezeCount
  · rw [if_pos hf] at h
    simp only [if_pos hf] at h
    revert h
    cases hrec : calcLoop size area fuel (max si freezeCount)
        (frozenLoop size (freezeCount - 1).toNat 1 (ss + size 0)).2 with
    | none => intro h; simp at h
    | some r =>
      obtain ⟨v, s, e⟩ := r
      intro h
      simp only [Option.some.injEq] at h
      obtain ⟨hch, _, _, L, hL, hLa⟩ :=
        calcLoop_spec size area fuel (max si freezeCount)
          (frozenLoop size (freezeCount - 1).toNat 1 (ss + size 0)).2 v s e hrec
      refine ⟨L, ?_, hLa⟩
      rw [← h]
      show ((ss + size 0) :: ((frozenLoop size (freezeCount - 1).toNat 1 (ss + size 0)).1.2.2 ++ e)).getLast? = some L
      have hene : e ≠ [] := hch.stop_ne_nil
      rw [getLast?_cons_of_ne_nil _ (by simp [hene]),
        List.getLast?_append_of_ne_nil _ hene]
      exact hL
  · rw [if_neg hf] at h
    simp only [if_neg hf] at h
    revert h
    cases hrec : calcLoop size area fuel (si + 1) (ss + size si) with
    | none => intro h; simp at h
    | some r =>
      obtain ⟨v, s, e⟩ := r
      intro h
      simp only [Option.some.injEq] at h
      obtain ⟨hch, _, _, L, hL, hLa⟩ :=
        calcLoop_spec size area fuel (si + 1) (ss + size si) v s e hrec
      refine ⟨L, ?_, hLa⟩
      rw [← h]
      show ((ss + size si) :: e).getLast? = some L
      rw [getLast?_cons_of_ne_nil _ hch.stop_ne_nil]
      exact hL

/-- With strictly positive sizes, the main loop succeeds once the fuel
covers the remaining pixel distance. -/
theorem calcLoop_total (size : Int → Int) (area : Int) (hpos : ∀ i, 1 ≤ size i) :
    ∀ (fuel : Nat) (ind prev : Int), area ≤ prev + fuel → 1 ≤ fuel →
      (calcLoop size area fuel ind prev).isSome := by
  intro fuel
  induction fuel with
  | zero => intro ind prev _ h1; omega
  | succ m ih =>
    intro ind prev harea _
    rw [calcLoop]
    by_cases hth : area ≤ prev + size ind
    · rw [if_pos hth]; rfl
    · rw [if_neg hth]
      have hs := hpos ind
      have hm : 1 ≤ m := by omega
      have := ih (ind + 1) (prev + size ind) (by push_cast at harea ⊢; omega) hm
      revert this
      cases calcLoop size area m (ind + 1) (prev + size ind) with
      | none => intro h; simp at h
      | some r => intro _; obtain ⟨v, s, e⟩ := r; rfl

/-- With strictly positive sizes, `calculateRowsOrColsSizes` terminates:
fuel covering the distance from the entry position to the requested
extent suffices. -/
theorem calculateRowsOrColsSizes_total (freezeCount : Int) (size : Int → Int)
    (ss si area : Int) (hpos : ∀ i, 1 ≤ size i) :
    ∃ fuel w, calculateRowsOrColsSizes freezeCount size ss si area fuel = some w := by
  by_cases hf : 0 < freezeCount
  · set p := (frozenLoop size (freezeCount - 1).toNat 1 (ss + size 0)).2 with hp
    refine ⟨(area - p).toNat + 1, ?_⟩
    have hsome := calcLoop_total size area hpos ((area - p).toNat + 1)
      (max si freezeCount) p (by push_cast; omega) (by omega)
    revert hsome
    rw [calculateRowsOrColsSizes]
    rw [if_pos hf]
    simp only [if_pos hf, ← hp]
    cases calcLoop size area ((area - p).toNat + 1) (max si freezeCount) p with
    | none => intro h; simp at h
    | some r => intro _; obtain ⟨v, s, e⟩ := r; exact ⟨_, rfl⟩
  · set q := ss + size si with hp
    refine ⟨(area - q).toNat + 1, ?_⟩
    have hsome := calcLoop_total size area hpos ((area - q).toNat + 1)
      (si + 1) q (by push_cast; omega) (by omega)
    revert hsome
    rw [calculateRowsOrColsSizes]
    rw [if_neg hf]
    simp only [if_neg hf, ← hp]
    cases calcLoop size area ((area - q).toNat + 1) (si + 1) q with
    | none => intro h; simp at h
    | some r => intro _; obtain ⟨v, s, e⟩ := r; exact ⟨_, rfl⟩

/-- The first-match scan of `absCoordianteToCell` returns the default
index `0` whenever no span of the window contains the point. -/
theorem axisPixelToCell_eq_zero :
    ∀ (vis st en : List Int) (p : Int),
      axisInAnySpan vis st en p = false → axisPixelToCell vis st en p = 0
  | v :: vs, s :: ss, e :: es, p, h => by
    rw [axisInAnySpan] at h
    rw [axisPixelToCell]
    have h1 := Bool.or_eq_false_iff.mp h
    have hcond : ¬ (s ≤ p ∧ p ≤ e) := by
      intro hc
      have := h1.1
      simp [hc.1, hc.2] at this
    rw [if_neg hcond]
    exact axisPixelToCell_eq_zero vs ss es p h1.2
  | [], _, _, _, _ => rfl
  | _ :: _, [], _, _, _ => rfl
  | _ :: _, _ :: _, [], _, _ => rfl

/-- Round trip on one axis: a point inside the pixel extent covered by a
chain window resolves to a visible index whose cached start span
contains the point. -/
theorem axis_roundtrip (size : Int → Int) :
    ∀ {vis st en : List Int}, AxisChain size vis st en →
      ∀ (p s0 L : Int), st.head? = some s0 → en.getLast? = some L →
        s0 ≤ p → p ≤ L →
        axisPixelToCell vis st en p ∈ vis ∧
        ∃ s, axisCellToPixelAux vis st (axisPixelToCell vis st en p) = some s ∧
          s ≤ p ∧ p ≤ s + size (axisPixelToCell vis st en p) := by
  intro vis st en h
  induction h with
  | single v s =>
    intro p s0 L hs0 hL hsp hpL
    have hs0e : s = s0 := by simpa using hs0
    have hLe : s + size v = L := by simpa using hL
    have hcond : s ≤ p ∧ p ≤ s + size v := ⟨by omega, by omega⟩
    have hres : axisPixelToCell [v] [s] [s + size v] p = v := by
      rw [axisPixelToCell, if_pos hcond]
    rw [hres]
    refine ⟨by simp, s, ?_, by omega, by omega⟩
    rw [axisCellToPixelAux, if_pos rfl]
  | cons v s v2 s2 vs ss es hlt hs2 htail ih =>
    intro p s0 L hs0 hL hsp hpL
    have hs0e : s = s0 := by simpa using hs0
    by_cases hple : p ≤ s2
    · have hcond : s ≤ p ∧ p ≤ s2 := ⟨by omega, hple⟩
      have hres : axisPixelToCell (v :: v2 :: vs) (s :: s2 :: ss) (s2 :: es) p = v := by
        rw [axisPixelToCell, if_pos hcond]
      rw [hres]
      refine ⟨by simp, s, ?_, by omega, by omega⟩
      rw [axisCellToPixelAux, if_pos rfl]
    · have hLtail : es.getLast? = some L := by
        rw [← getLast?_cons_of_ne_nil s2 htail.stop_ne_nil]
        exact hL
      obtain ⟨hmem, s3, haux, hsb, hpb⟩ := ih p s2 L rfl hLtail (by omega) hpL
      have hcond : ¬ (s ≤ p ∧ p ≤ s2) := by omega
      have hres : axisPixelToCell (v :: v2 :: vs) (s :: s2 :: ss) (s2 :: es) p =
          axisPixelToCell (v2 :: vs) (s2 :: ss) es p := by
        rw [axisPixelToCell, if_neg hcond]
      rw [hres]
      have hvc : ¬ (v = axisPixelToCell (v2 :: vs) (s2 :: ss) es p) := by
        have := htail.head_le v2 rfl _ hmem
        omega
      refine ⟨List.mem_cons_of_mem _ hmem, s3, ?_, hsb, hpb⟩
      rw [axisCellToPixelAux, if_neg hvc]
      exact haux

/-- The frozen-block loop lists exactly the `n` consecutive indices
starting at its starting index. -/
theorem frozenLoop_visible (size : Int → Int) :
    ∀ (n : Nat) (ind prev : Int),
      (frozenLoop size n ind prev).1.1 =
        List.map (fun i : Nat => ind + (i : Int)) (List.range n) := by
  intro n
  induction n with
  | zero => intro ind prev; rfl
  | succ m ih =>
    intro ind prev
    show ind :: (frozenLoop size m (ind + 1) (prev + size ind)).1.1 = _
    rw [ih (ind + 1) (prev + size ind), List.range_succ_eq_map]
    simp only [List.map_cons, List.map_map]
    refine congrArg₂ List.cons (by omega) ?_
    apply List.map_congr_left
    intro a _
    show (ind + 1) + (a : Int) = ind + ((Nat.succ a : Nat) : Int)
    push_cast
    ring

/-! ### Concrete fixtures used by counterexamples and witnesses -/

/-- The column window computed for uniform 100-pixel columns, no frozen
columns, scroll offset 0 and a 300-pixel extent. -/
def colWinEx : AxisWindow := ⟨[0, 1, 2], [50, 150, 250], [150, 250, 350]⟩

/-- The row window computed for uniform 22-pixel rows, no frozen rows,
scroll offset 0 and a 100-pixel extent. -/
def rowWinEx : AxisWindow := ⟨[0, 1, 2, 3], [22, 44, 66, 88], [44, 66, 88, 110]⟩

/-- A read-only accessor marking exactly cell `(1, 1)` read-only. -/
def readOnlyAtOneOne : Int → Int → Bool := fun x y => decide (x = 1 ∧ y = 1)

/-- A source-data accessor whose 2-by-2 region at the origin holds the
values `[[1, 2], [3, 4]]`. -/
def fillSrc : Int → Int → Int := fun x y => y * 2 + x + 1

/-- The spec's "total content extent": the grid's content is unbounded to
the right and below, so at scroll offset `0` its pixel extent is every
point at or past the header bands. -/
def insideTotalContentExtent (px py : Int) : Prop :=
  rowHeaderWidth ≤ px ∧ columnHeaderHeight ≤ py

instance (px py : Int) : Decidable (insideTotalContentExtent px py) :=
  inferInstanceAs (Decidable (rowHeaderWidth ≤ px ∧ columnHeaderHeight ≤ py))

/-- Helper for the C8 counterexample: with an all-zero size accessor and
a 1-pixel extent the main loop of `calculateRowsOrColsSizes` never meets
its exit condition, whatever the fuel. -/
theorem calcLoop_zero_none : ∀ (fuel : Nat) (ind : Int),
    calcLoop (fun _ => 0) 1 fuel ind 0 = none
  | 0, _ => rfl
  | fuel + 1, ind => by
    rw [calcLoop]
    norm_num
    rw [calcLoop_zero_none fuel (ind + 1)]

/-- Helper: the one-element JS index range. -/
theorem intRange_self (a : Int) : intRange a a = [a] := by
  unfold intRange
  have h1 : (a + 1 - a).toNat = 1 := by omega
  rw [h1, List.range_succ, List.range_zero]
  simp

/-- Helper: deleting a single-cell selection emits exactly one
`null`-valued change at that cell. -/
theorem deleteChanges_singleton (x y : Int) :
    deleteChanges ⟨x, y, x, y⟩ = [{ x := x, y := y, value := none }] := by
  simp [deleteChanges, intRange_self]

/-! ### Claim theorems -/

/-- C1 (counterexample): `absCoordianteToCell` has no distinct "no cell"
result.  With the windows computed for a 300 by 100 pixel viewport, the
point `(10, 10)` lies outside every visible column span and every
visible row span, yet the conversion returns `(0, 0)` — the very same
value returned for the point `(60, 30)` that genuinely lies inside cell
`(0, 0)`. -/
theorem c1_pixel_outside_counterexample :
    calculateRowsOrColsSizes 0 (fun _ => 100) 50 0 300 10 = some colWinEx ∧
    calculateRowsOrColsSizes 0 (fun _ => 22) 22 0 100 10 = some rowWinEx ∧
    axisInAnySpan colWinEx.visible colWinEx.start colWinEx.stop 10 = false ∧
    axisInAnySpan rowWinEx.visible rowWinEx.start rowWinEx.stop 10 = false ∧
    absCoordianteToCell colWinEx rowWinEx 10 10 = ⟨0, 0⟩ ∧
    absCoordianteToCell colWinEx rowWinEx 60 30 = ⟨0, 0⟩ := by decide

/-- C1 (amended): a pixel point outside every visible span on an axis
maps to coordinate `0` on that axis — the scan's initial value — so a
point outside on either axis is reported with that coordinate `0`, and a
point outside on both axes is reported as cell `(0, 0)`,
indistinguishable from a genuine hit on cell `0`; there is no distinct
"no cell" result. -/
theorem c1_outside_maps_to_cell_zero (colWin rowWin : AxisWindow) (px py : Int) :
    (axisInAnySpan colWin.visible colWin.start colWin.stop px = false →
      (absCoordianteToCell colWin rowWin px py).x = 0) ∧
    (axisInAnySpan rowWin.visible rowWin.start rowWin.stop py = false →
      (absCoordianteToCell colWin rowWin px py).y = 0) ∧
    (axisInAnySpan colWin.visible colWin.start colWin.stop px = false →
      axisInAnySpan rowWin.visible rowWin.start rowWin.stop py = false →
      absCoordianteToCell colWin rowWin px py = ⟨0, 0⟩) := by
  refine ⟨?_, ?_, ?_⟩
  · intro hx
    exact axisPixelToCell_eq_zero _ _ _ _ hx
  · intro hy
    exact axisPixelToCell_eq_zero _ _ _ _ hy
  · intro hx hy
    unfold absCoordianteToCell
    rw [axisPixelToCell_eq_zero _ _ _ _ hx, axisPixelToCell_eq_zero _ _ _ _ hy]

/-- Witness for the amended C1: the single-axis case at `(10, 50)`
(outside every column span, inside row 1's span, resolving to `(0, 1)`
with column coordinate `0`) and the both-axes case at `(10, 10)`. -/
theorem c1_outside_maps_to_cell_zero_witness :
    (absCoordianteToCell colWinEx rowWinEx 10 50).x = 0 ∧
    absCoordianteToCell colWinEx rowWinEx 10 50 = ⟨0, 1⟩ ∧
    absCoordianteToCell colWinEx rowWinEx 10 10 = ⟨0, 0⟩ :=
  ⟨(c1_outside_maps_to_cell_zero colWinEx rowWinEx 10 50).1 (by decide),
   by decide,
   (c1_outside_maps_to_cell_zero colWinEx rowWinEx 10 10).2.2 (by decide) (by decide)⟩

/-- C2 (counterexample): read-only cells are not protected from every
write path.  With cell `(1, 1)` read-only, pressing Delete on the
selection `(1,1)-(1,1)` emits a change for `(1, 1)`, and pasting `"v"`
anchored there also emits a change for it (`parsePastedText` never
consults the read-only accessor). -/
theorem c2_readonly_counterexample :
    readOnlyAtOneOne 1 1 = true ∧
    (onGridKeyDown readOnlyAtOneOne (fun _ _ => none) ⟨1, 1, 1, 1⟩ .del false).changes =
      [{ x := 1, y := 1, value := none }] ∧
    parsePastedText ⟨1, 1, 1, 1⟩ ['v'] =
      some ([{ x := 1, y := 1, value := ['v'] }], ⟨1, 1, 1, 1⟩) := by decide

/-- C2 (amended): the read-only check guards only the edit-start paths:
`startEditingCell` (double-click) and the typing branch of
`onGridKeyDown` refuse a read-only cell and emit nothing, so no edit
commit can target it; but the Backspace/Delete branch emits a `null`
change for a read-only cell exactly as for a writable one, and arrow-key
navigation over the cell still succeeds. -/
theorem c2_readonly_blocks_edit_only (ro : Int → Int → Bool)
    (ed : Int → Int → Option (List Char)) (x y : Int) (shiftKey : Bool)
    (h : ro x y = true) (hx : x ≠ -1) (hy : y ≠ -1) :
    startEditingCell ro ed ⟨x, y⟩ = none ∧
    onGridKeyDown ro ed ⟨x, y, x, y⟩ .printable shiftKey = ⟨[], none, none⟩ ∧
    (onGridKeyDown ro ed ⟨x, y, x, y⟩ .del shiftKey).changes =
      [{ x := x, y := y, value := none }] ∧
    (onGridKeyDown ro ed ⟨x, y, x, y⟩ .arrowDown shiftKey).selChange =
      some (arrowMove ⟨x, y, x, y⟩ .arrowDown shiftKey) := by
  refine ⟨?_, ?_, ?_, ?_⟩
  · simp [startEditingCell, h]
  · simp [onGridKeyDown, hx, hy, h]
  · simp only [onGridKeyDown]
    norm_num
    exact deleteChanges_singleton x y
  · simp [onGridKeyDown, hx, hy]

/-- Witness for the amended C2 at the concrete read-only cell `(1, 1)`. -/
theorem c2_readonly_blocks_edit_only_witness :
    startEditingCell readOnlyAtOneOne (fun _ _ => none) ⟨1, 1⟩ = none ∧
    onGridKeyDown readOnlyAtOneOne (fun _ _ => none) ⟨1, 1, 1, 1⟩ .printable false =
      ⟨[], none, none⟩ ∧
    (onGridKeyDown readOnlyAtOneOne (fun _ _ => none) ⟨1, 1, 1, 1⟩ .del false).changes =
      [{ x := 1, y := 1, value := none }] ∧
    (onGridKeyDown readOnlyAtOneOne (fun _ _ => none) ⟨1, 1, 1, 1⟩ .arrowDown false).selChange =
      some (arrowMove ⟨1, 1, 1, 1⟩ .arrowDown false) :=
  c2_readonly_blocks_edit_only readOnlyAtOneOne (fun _ _ => none) 1 1 false
    (by decide) (by decide) (by decide)

/-- The spec's round-trip composition `cellToPixel(pixelToCell(p))`:
resolve the pixel point to a cell with `absCoordianteToCell`, convert it
back with `cellToAbsCoordinate`, and extend the start point by that
cell's width and height: `(left, top, right, bottom)`. -/
def roundTripRect (colWin rowWin : AxisWindow) (cw ch : Int → Int)
    (offX offY px py : Int) : Int × Int × Int × Int :=
  let c := absCoordianteToCell colWin rowWin px py
  let q := cellToAbsCoordinate colWin rowWin cw ch offX offY c.x c.y
  (q.1, q.2, q.1 + cw c.x, q.2 + ch c.y)

/-- C3 (counterexample): the round trip does not contain `p` for every
`p` inside the total content extent.  The point `(400, 50)` lies in the
content area (past both header bands; the grid's content is unbounded),
but it is beyond the last computed column span (ending at 350), so
`absCoordianteToCell` falls back to column `0` and the resulting
rectangle `(50, 44)-(150, 66)` does not contain the point. -/
theorem c3_roundtrip_counterexample :
    calculateRowsOrColsSizes 0 (fun _ => 100) 50 0 300 10 = some colWinEx ∧
    calculateRowsOrColsSizes 0 (fun _ => 22) 22 0 100 10 = some rowWinEx ∧
    insideTotalContentExtent 400 50 ∧
    ¬ ((roundTripRect colWinEx rowWinEx (fun _ => 100) (fun _ => 22) 0 0 400 50).1 ≤ 400 ∧
       (400 : Int) ≤ (roundTripRect colWinEx rowWinEx (fun _ => 100) (fun _ => 22) 0 0 400 50).2.2.1 ∧
       (roundTripRect colWinEx rowWinEx (fun _ => 100) (fun _ => 22) 0 0 400 50).2.1 ≤ 50 ∧
       (50 : Int) ≤ (roundTripRect colWinEx rowWinEx (fun _ => 100) (fun _ => 22) 0 0 400 50).2.2.2) := by
  decide

/-- C3 (amended): for every pixel point inside the pixel extent actually
covered by the computed viewport windows (from the first span's start to
the last span's end on each axis), converting the point to a cell with
`absCoordianteToCell` and back with `cellToAbsCoordinate` yields a
rectangle (start point plus that cell's width and height) that contains
the point. -/
theorem c3_roundtrip_within_window (cw ch : Int → Int)
    (fC fR ssC ssR siC siR areaC areaR offX offY : Int) (fuelC fuelR : Nat)
    (wc wr : AxisWindow) (px py s0c s0r Lc Lr : Int)
    (hc : calculateRowsOrColsSizes fC cw ssC siC areaC fuelC = some wc)
    (hr : calculateRowsOrColsSizes fR ch ssR siR areaR fuelR = some wr)
    (hc0 : wc.start.head? = some s0c) (hcL : wc.stop.getLast? = some Lc)
    (hr0 : wr.start.head? = some s0r) (hrL : wr.stop.getLast? = some Lr)
    (hpx1 : s0c ≤ px) (hpx2 : px ≤ Lc) (hpy1 : s0r ≤ py) (hpy2 : py ≤ Lr) :
    (roundTripRect wc wr cw ch offX offY px py).1 ≤ px ∧
    px ≤ (roundTripRect wc wr cw ch offX offY px py).2.2.1 ∧
    (roundTripRect wc wr cw ch offX offY px py).2.1 ≤ py ∧
    py ≤ (roundTripRect wc wr cw ch offX offY px py).2.2.2 := by
  obtain ⟨hmx, sx, hauxX, hx1, hx2⟩ :=
    axis_roundtrip cw (calculateRowsOrColsSizes_chain fC cw ssC siC areaC fuelC wc hc)
      px s0c Lc hc0 hcL hpx1 hpx2
  obtain ⟨hmy, sy, hauxY, hy1, hy2⟩ :=
    axis_roundtrip ch (calculateRowsOrColsSizes_chain fR ch ssR siR areaR fuelR wr hr)
      py s0r Lr hr0 hrL hpy1 hpy2
  have hrt : roundTripRect wc wr cw ch offX offY px py =
      (sx, sy, sx + cw (axisPixelToCell wc.visible wc.start wc.stop px),
       sy + ch (axisPixelToCell wr.visible wr.start wr.stop py)) := by
    simp only [roundTripRect, cellToAbsCoordinate, absCoordianteToCell, axisCellToPixel,
      hauxX, hauxY]
  rw [hrt]
  exact ⟨hx1, hx2, hy1, hy2⟩

/-- Witness for the amended C3 at the in-window point `(60, 30)`. -/
theorem c3_roundtrip_within_window_witness :
    (roundTripRect colWinEx rowWinEx (fun _ => 100) (fun _ => 22) 0 0 60 30).1 ≤ 60 ∧
    (60 : Int) ≤ (roundTripRect colWinEx rowWinEx (fun _ => 100) (fun _ => 22) 0 0 60 30).2.2.1 ∧
    (roundTripRect colWinEx rowWinEx (fun _ => 100) (fun _ => 22) 0 0 60 30).2.1 ≤ 30 ∧
    (30 : Int) ≤ (roundTripRect colWinEx rowWinEx (fun _ => 100) (fun _ => 22) 0 0 60 30).2.2.2 :=
  c3_roundtrip_within_window (fun _ => 100) (fun _ => 22) 0 0 50 22 0 0 300 100 0 0 10 10
    colWinEx rowWinEx 60 30 50 22 350 110 (by decide) (by decide) (by decide) (by decide)
    (by decide) (by decide) (by decide) (by decide) (by decide) (by decide)

/-- C4 (counterexample): the scroll offset does not always advance by
exactly one cell relative to the current offset.  With 2 frozen columns,
scroll offset 0 and the window `[0, 1, 2]`, selecting the off-window
column 5 makes `changeSelection` jump the offset to
`max(0, 2) + 1 = 3`, not `0 + 1 = 1`. -/
theorem c4_scroll_advance_counterexample :
    calculateRowsOrColsSizes 2 (fun _ => 100) 50 0 300 10 =
      some ⟨[0, 1, 2], [50, 150, 250], [150, 250, 350]⟩ ∧
    scrollFollowAxis [0, 1, 2] 0 2 5 = some (3, 3 * scrollSpeed) ∧
    ¬ (3 : Int) = 0 + 1 := by decide

/-- C4 (amended): whenever the active corner is missing from the visible
list or sits at its last (possibly clipped) entry, `changeSelection`
sets the scroll offset to `max(current offset, frozen count)` plus one
in the direction required (minus one when the corner is before the last
visible index), and requests the host scroll position
`newOffset * scrollSpeed`. -/
theorem c4_scroll_one_step_from_frozen_base (visible : List Int) (offset freeze c2 : Int)
    (htrig : ¬ (c2 ∈ visible) ∨ (visible.getLast?).getD 0 = c2) :
    ∃ newOff,
      scrollFollowAxis visible offset freeze c2 = some (newOff, newOff * scrollSpeed) ∧
      (newOff = max offset freeze + 1 ∨ newOff = max offset freeze - 1) ∧
      ((visible.getLast?).getD 0 ≤ c2 → newOff = max offset freeze + 1) ∧
      (c2 < (visible.getLast?).getD 0 → newOff = max offset freeze - 1) := by
  by_cases hle : (visible.getLast?).getD 0 ≤ c2
  · refine ⟨max offset freeze + 1, ?_, Or.inl rfl, fun _ => rfl, fun hlt => by omega⟩
    simp only [scrollFollowAxis]
    rw [if_pos htrig, if_pos hle]
  · refine ⟨max offset freeze - 1, ?_, Or.inr rfl, fun hc => absurd hc hle, fun _ => rfl⟩
    simp only [scrollFollowAxis]
    rw [if_pos htrig, if_neg hle]
    have harith : max offset freeze + (-1 : Int) = max offset freeze - 1 := by ring
    rw [harith]

/-- Witness for the amended C4 at the concrete trigger `c2 = 5` with
window `[0, 1, 2]`, offset 0 and 2 frozen columns. -/
theorem c4_scroll_one_step_from_frozen_base_witness :
    ∃ newOff,
      scrollFollowAxis [0, 1, 2] 0 2 5 = some (newOff, newOff * scrollSpeed) ∧
      (newOff = max 0 2 + 1 ∨ newOff = max 0 2 - 1) ∧
      ((([0, 1, 2] : List Int).getLast?).getD 0 ≤ 5 → newOff = max 0 2 + 1) ∧
      ((5 : Int) < (([0, 1, 2] : List Int).getLast?).getD 0 → newOff = max 0 2 - 1) :=
  c4_scroll_one_step_from_frozen_base [0, 1, 2] 0 2 5 (by decide)

/-- C5: releasing a fill-handle drag that extends the 2-by-2 fixed
region `(0,0)-(1,1)` (holding source values `[[1, 2], [3, 4]]`) three
rows below emits, per destination row in order, the values `[1, 2]` for
row 2, `[3, 4]` for row 3 and `[1, 2]` again for row 4: the source row
cycles through the fixed region's row range, advancing one source row
per destination row and wrapping to the top on overflow. -/
theorem c5_fill_cycles_rows :
    fillSrc 0 0 = 1 ∧ fillSrc 1 0 = 2 ∧ fillSrc 0 1 = 3 ∧ fillSrc 1 1 = 4 ∧
    fillChanges ⟨0, 0, 1, 1⟩ ⟨0, 0, 1, 4⟩ fillSrc =
      [{ x := 0, y := 2, value := 1 }, { x := 1, y := 2, value := 2 },
       { x := 0, y := 3, value := 3 }, { x := 1, y := 3, value := 4 },
       { x := 0, y := 4, value := 1 }, { x := 1, y := 4, value := 2 }] := by
  decide

/-- C6: pasting the plain text `"a\tb\nc\td"` with the paste anchor at
cell `(2, 3)` emits exactly 4 change records — `(2,3,a)`, `(3,3,b)`,
`(2,4,c)`, `(3,4,d)` in that order — and leaves the selection as the
rectangle `(2,3)-(3,4)`. -/
theorem c6_paste_two_by_two :
    parsePastedText ⟨2, 3, 2, 3⟩ ['a', '\t', 'b', '\n', 'c', '\t', 'd'] =
      some ([{ x := 2, y := 3, value := ['a'] }, { x := 3, y := 3, value := ['b'] },
             { x := 2, y := 4, value := ['c'] }, { x := 3, y := 4, value := ['d'] }],
        ⟨2, 3, 3, 4⟩) := by
  decide

/-- C7: for every frozen count `f > 0` and every scroll offset, the
window computed by `calculateRowsOrColsSizes` contains every index
`0 ≤ i < f`, regardless of the scroll offset and visible extent. -/
theorem c7_frozen_always_visible (freezeCount : Int) (size : Int → Int)
    (ss si area : Int) (fuel : Nat) (w : AxisWindow)
    (hf : 0 < freezeCount)
    (h : calculateRowsOrColsSizes freezeCount size ss si area fuel = some w)
    (i : Int) (h0 : 0 ≤ i) (hif : i < freezeCount) : i ∈ w.visible := by
  rw [calculateRowsOrColsSizes] at h
  rw [if_pos hf] at h
  simp only [if_pos hf] at h
  revert h
  cases hrec : calcLoop size area fuel (max si freezeCount)
      (frozenLoop size (freezeCount - 1).toNat 1 (ss + size 0)).2 with
  | none => intro h; simp at h
  | some r =>
    obtain ⟨v, s, e⟩ := r
    intro h
    simp only [Option.some.injEq] at h
    rw [← h]
    show i ∈ (0 : Int) :: (frozenLoop size (freezeCount - 1).toNat 1 (ss + size 0)).1.1 ++ v
    by_cases hi0 : i = 0
    · simp [hi0]
    · have hmem : i ∈ (frozenLoop size (freezeCount - 1).toNat 1 (ss + size 0)).1.1 := by
        rw [frozenLoop_visible]
        refine List.mem_map.mpr ⟨(i - 1).toNat, List.mem_range.mpr (by omega), ?_⟩
        show (1 : Int) + ((i - 1).toNat : Int) = i
        omega
      exact List.mem_cons_of_mem _ (List.mem_append_left _ hmem)

/-- Witness for C7: with 2 frozen indices, both frozen indices appear in
the concretely computed window. -/
theorem c7_frozen_always_visible_witness :
    (1 : Int) ∈ (AxisWindow.mk [0, 1, 2] [0, 10, 20] [10, 20, 30]).visible :=
  c7_frozen_always_visible 2 (fun _ => 10) 0 0 25 10 ⟨[0, 1, 2], [0, 10, 20], [10, 20, 30]⟩
    (by decide) (by decide) 1 (by decide) (by decide)

/-- C8 (counterexample): `calculateRowsOrColsSizes` does not terminate
for every size accessor.  With the all-zero size accessor, starting size
0 and a 1-pixel visible extent, the cumulative end never reaches the
extent and the `while (true)` loop never exits (no fuel suffices). -/
theorem c8_termination_counterexample : ¬ calcTerminates 0 (fun _ => 0) 0 0 1 := by
  rintro ⟨fuel, h⟩
  rw [calculateRowsOrColsSizes] at h
  norm_num at h
  rw [calcLoop_zero_none fuel 1] at h
  simp at h

/-- C8 (amended): for every size accessor returning strictly positive
sizes (and any frozen count, starting offset, starting index and visible
extent), `calculateRowsOrColsSizes` terminates, and whenever it returns
a window the last entry of its end array meets or exceeds the requested
visible extent. -/
theorem c8_terminates_with_positive_sizes (freezeCount : Int) (size : Int → Int)
    (ss si area : Int) (hpos : ∀ i, 1 ≤ size i) :
    calcTerminates freezeCount size ss si area ∧
    ∀ fuel w, calculateRowsOrColsSizes freezeCount size ss si area fuel = some w →
      ∃ L, w.stop.getLast? = some L ∧ area ≤ L := by
  constructor
  · obtain ⟨fuel, w, h⟩ := calculateRowsOrColsSizes_total freezeCount size ss si area hpos
    exact ⟨fuel, by rw [h]; rfl⟩
  · intro fuel w h
    exact calculateRowsOrColsSizes_lastStop freezeCount size ss si area fuel w h

/-- Witness for the amended C8 with the uniform 10-pixel size accessor. -/
theorem c8_terminates_with_positive_sizes_witness :
    calcTerminates 0 (fun _ => 10) 0 0 25 :=
  (c8_terminates_with_positive_sizes 0 (fun _ => 10) 0 0 25 (fun _ => by norm_num)).1

/-- C9: on every invocation, `changeSelection` hands
`onSelectionChanged` a normalized rectangle — first corner componentwise
at most the second — that covers exactly the same cell set as the input
rectangle, however the input was inverted. -/
theorem c9_selection_emitted_normalized (x1 y1 x2 y2 : Int) :
    (emittedSelection x1 y1 x2 y2).x1 ≤ (emittedSelection x1 y1 x2 y2).x2 ∧
    (emittedSelection x1 y1 x2 y2).y1 ≤ (emittedSelection x1 y1 x2 y2).y2 ∧
    ∀ p q : Int,
      ((emittedSelection x1 y1 x2 y2).x1 ≤ p ∧ p ≤ (emittedSelection x1 y1 x2 y2).x2 ∧
        (emittedSelection x1 y1 x2 y2).y1 ≤ q ∧ q ≤ (emittedSelection x1 y1 x2 y2).y2) ↔
      (min x1 x2 ≤ p ∧ p ≤ max x1 x2 ∧ min y1 y2 ≤ q ∧ q ≤ max y1 y2) := by
  unfold emittedSelection
  dsimp only
  split_ifs <;> exact ⟨by omega, by omega, fun p q => by omega⟩

/-- C10: pressing Backspace or Delete while no selection exists (all
four components `-1`) still emits exactly one change record
`{x := -1, y := -1, value := null}`, because the delete branch of
`onGridKeyDown` runs before the no-selection guard. -/
theorem c10_delete_without_selection (ro : Int → Int → Bool)
    (ed : Int → Int → Option (List Char)) (shiftKey : Bool) :
    onGridKeyDown ro ed ⟨-1, -1, -1, -1⟩ .backspace shiftKey =
      ⟨[{ x := -1, y := -1, value := none }], none, none⟩ ∧
    onGridKeyDown ro ed ⟨-1, -1, -1, -1⟩ .del shiftKey =
      ⟨[{ x := -1, y := -1, value := none }], none, none⟩ := by
  constructor <;> rfl

end Sheet
